import Mathlib

/-!
Verification development for `s3-copy-dir` (src/main.go): a tool that copies
a directory of objects from a source S3 endpoint to a destination endpoint,
intending to skip objects already present at the destination, with bounded
worker concurrency and optional progress estimation.

The development has two layers:

* a per-object / per-run functional embedding of `copyObj` and of `main`'s
  dispatch loop (sequentialized), used for the claims about outcomes, the
  existence probe, error locality, idempotence and progress formatting;
* an interleaving transition system for `main`'s worker gate (the buffered
  channel `workersCh`), the shared `objCounter` and the drain loop, used for
  the concurrency claims.
-/

/-! ## Per-object embedding of `copyObj` (src/main.go lines 130-163) -/

/-- Result of `dst.StatObject` as far as `copyObj` looks at it: the `Key`
field of the returned `minio.ObjectInfo`. -/
structure StatInfo where
  key : String
deriving DecidableEq, Repr

/-- The I/O results the single call `copyObj` observes for one object:
the destination `StatObject` result (success metadata or error) and the
destination `PutObject` result (bytes written or error). `src.GetObject`
in minio-go returns a lazy reader; its rare immediate error is only logged
by `copyObj` (`logErr`) and read failures surface through `PutObject`,
so the get is represented in the action trace below rather than here. -/
structure ObjEnv where
  statResult : Except String StatInfo
  putResult : Except String Int
deriving Repr

/-- Per-object outcome reported by `copyObj`: the three log branches at
src/main.go lines 153-162. -/
inductive TransferOutcome where
  | skipped
  | copied (byteCount : Int)
  | failed (err : String)
deriving DecidableEq, Repr

/-- S3 calls `copyObj` issues against the stores, in program order.
`putObject` is the streaming upload: executing it reads the payload from the
source reader and writes it to the destination. -/
inductive S3Action where
  | getObject (key : String)
  | statObject (key : String)
  | putObject (key : String)
deriving DecidableEq, Repr

/-- Go line 137 discards the `StatObject` error with `_`; on error the
zero-value `minio.ObjectInfo` is used, whose `Key` is the empty string. -/
def statKeyOf : Except String StatInfo → String
  | .ok s => s.key
  | .error _ => ""

/-- What one `copyObj` call did: the outcome it logged and the S3 calls it
performed. -/
structure CopyResult where
  outcome : TransferOutcome
  actions : List S3Action
deriving DecidableEq, Repr

/-- Embedding of `copyObj` (src/main.go lines 130-163). Program order:
`GetObject` (line 133), `StatObject` with discarded error (line 137),
`PutObject` unconditionally (line 140), then — after incrementing the
counter — the branch on `dstObjStat.Key != ""` (line 153) decides whether
the log line says "skipping", and otherwise the `PutObject` error decides
between the error log (line 159) and the copied log (line 161). Note the
upload at line 140 is NOT guarded by the existence check. -/
def copyObj (objPath : String) (env : ObjEnv) : CopyResult :=
  let dstKey := statKeyOf env.statResult
  let outcome :=
    if dstKey ≠ "" then TransferOutcome.skipped
    else
      match env.putResult with
      | .ok size => TransferOutcome.copied size
      | .error e => TransferOutcome.failed e
  { outcome := outcome
    actions := [S3Action.getObject objPath, S3Action.statObject objPath,
                S3Action.putObject objPath] }

/-! ## Store-level run embedding of `main`'s dispatch loop -/

/-- One entry of the listing channel `objCh` (minio-go `ObjectInfo`): a key,
and the in-band `Err` field. minio-go's `ListObjects` reports a mid-stream
listing failure by sending a final entry whose `Err` is set and closing the
channel; src/main.go never inspects `Err` (lines 120-122 and 207-210), so
such entries flow through the same path as ordinary objects. -/
structure ObjectInfo where
  key : String
  err : Option String
deriving DecidableEq, Repr

/-- Destination `StatObject` against a destination store modelled as the list
of keys present: present keys stat successfully with their key, absent keys
return a not-found error. -/
def statOf (dst : List String) (key : String) : Except String StatInfo :=
  if key ∈ dst then .ok ⟨key⟩ else .error "The specified key does not exist."

/-- Destination `PutObject` streaming from the source reader for `key`: the
source is modelled as a partial map from key to payload size; a missing
source object makes the streaming read, and hence the put, fail. -/
def putOf (src : String → Option Int) (key : String) : Except String Int :=
  match src key with
  | some size => .ok size
  | none => .error "read failed"

/-- The `ObjEnv` a `copyObj` call observes for `key` given the source map and
the current destination store contents. -/
def envFor (src : String → Option Int) (dst : List String) (key : String) : ObjEnv :=
  { statResult := statOf dst key, putResult := putOf src key }

/-- One dispatched transfer: the `copyObj` call for `key` plus the effect of
its unconditional `PutObject` on the destination store (a successful put
makes `key` present; a failed put leaves the store unchanged). -/
def runObj (src : String → Option Int) (dst : List String) (key : String) :
    CopyResult × List String :=
  let r := copyObj key (envFor src dst key)
  let dst2 :=
    match putOf src key with
    | .ok _ => key :: dst
    | .error _ => dst
  (r, dst2)

/-- Trace of a whole run: the outcome logged for each dispatched entry in
order, the final destination store, and the final value of the shared
`objCounter.Current` (incremented once per entry, line 146). -/
structure RunTrace where
  outcomes : List TransferOutcome
  finalDst : List String
  finalCount : Nat
deriving DecidableEq, Repr

/-- `main`'s dispatch loop (src/main.go lines 207-210), sequentialized: every
entry the listing channel yields — error entries included, since `obj.Err` is
never read — is dispatched as a `copyObj` of its `Key`, and the counter is
incremented once per entry. -/
def runAll (src : String → Option Int) :
    List ObjectInfo → List String → RunTrace
  | [], dst => { outcomes := [], finalDst := dst, finalCount := 0 }
  | e :: es, dst =>
    let rd := runObj src dst e.key
    let t := runAll src es rd.2
    { outcomes := rd.1.outcome :: t.outcomes
      finalDst := t.finalDst
      finalCount := t.finalCount + 1 }

/-- How a run can end: `main` logs "copy completed" and returns
(src/main.go line 217), or it aborts through `logFatal`. -/
inductive RunResult where
  | completed (outcomes : List TransferOutcome) (finalCount : Nat)
  | aborted (err : String)
deriving DecidableEq, Repr

/-- The run performed by `main` once clients are constructed: the dispatch
loop consumes the whole listing and the drain loop then reaches "copy
completed". After client construction there is no `logFatal` call left on
`main`'s path (lines 200-220), so no listing condition can abort the run. -/
def mainRun (src : String → Option Int) (listing : List ObjectInfo)
    (dst : List String) : RunResult :=
  let t := runAll src listing dst
  .completed t.outcomes t.finalCount

/-- Did the run reach "copy completed"? -/
def RunResult.isCompleted : RunResult → Bool
  | .completed _ _ => true
  | .aborted _ => false

/-- Number of per-object outcomes the run logged. -/
def RunResult.numOutcomes : RunResult → Nat
  | .completed outs _ => outs.length
  | .aborted _ => 0

/-- Final `objCounter.Current` the run reports. -/
def RunResult.reportedCount : RunResult → Nat
  | .completed _ n => n
  | .aborted _ => 0

/-! ## Progress reporting format (src/main.go lines 148-151 and 193-198) -/

/-- The `[current]` / `[current/total]` label `copyObj` prints: Go builds
`total := ""`, appends `"/" + strconv.FormatInt(oc.Total, 10)` only when
`oc.Total != -1`, and formats `"[%d%s]"` with the current count. -/
def progressLabel (total current : Int) : String :=
  let t := if total ≠ -1 then "/" ++ toString total else ""
  "[" ++ toString current ++ t ++ "]"

/-- `main` lines 193-198: `oc.Total` is the pre-count result when the
`-progress` flag is set, and the sentinel `-1` (total unset) otherwise. -/
def ocTotal (showProgress : Bool) (counted : Int) : Int :=
  if showProgress then counted else -1

/-! ## Interleaving model of the worker gate, counter and drain loop

`main` (src/main.go lines 206-220) creates `workersCh := make(chan struct{},
concurrency)`, sends one token per listed object before spawning its
`copyObj` goroutine, and after the listing is exhausted polls
`len(workersCh)` until it is zero before logging "copy completed". Each
`copyObj` goroutine increments the shared counter under the mutex (line 146,
one atomic critical section) and then, as its deferred last action (line
131), receives one token from `workersCh`.

The transition system below has one state per interleaving point that touches
shared state. `K` is the number of objects the dispatch-phase listing yields
and `C` the channel capacity (`options.Concurrency`). -/

/-- Observable phase of one spawned `copyObj` goroutine: still before its
counter increment, after the increment but before its deferred channel
receive, or finished (token released). -/
inductive WorkerPC where
  | running
  | incremented
  | released
deriving DecidableEq, Repr

/-- Number of workers whose phase satisfies `p`. -/
def countP (p : WorkerPC → Bool) : List WorkerPC → Nat
  | [] => 0
  | w :: ws => (if p w then 1 else 0) + countP p ws

/-- Shared state of the run: one entry per goroutine spawned so far (so
`workers.length` = number of gate tokens sent = objects dispatched), the
shared `objCounter.Current`, and whether `main` has logged "copy completed"
and returned. -/
structure SysState where
  workers : List WorkerPC
  current : Nat
  done : Bool
deriving DecidableEq, Repr

/-- Tokens currently buffered in `workersCh`: one per dispatched goroutine
that has not yet performed its deferred receive. -/
def outstanding (s : SysState) : Nat :=
  countP (fun w => w != WorkerPC.released) s.workers

/-- State at the top of `main`'s dispatch loop: nothing dispatched. -/
def initState : SysState :=
  { workers := [], current := 0, done := false }

/-- One interleaving step of `main` and its worker goroutines.

* `dispatchBuf`: the dispatch loop's send `workersCh <- struct{}{}` on the
  buffered channel (capacity `C > 0` implicitly: the send completes exactly
  when fewer than `C` tokens are buffered) followed by `go copyObj(...)`.
* `dispatchSync`: the same send when `C = 0` (unbuffered channel): it can
  only complete as a rendezvous with a worker blocked on its deferred
  receive, releasing that worker in the same step.
* `workerIncr`: a worker's mutex-protected critical section (lines 143-162):
  increment `oc.Current` and emit its log line.
* `workerRelease`: a worker's deferred receive from the non-empty buffered
  channel (line 131).
* `finish`: the drain loop observes `len(workersCh) == 0` after the listing
  was exhausted (all `K` objects dispatched) and logs "copy completed". -/
inductive Step (K C : Nat) : SysState → SysState → Prop where
  | dispatchBuf (s : SysState) (h1 : s.done = false) (h2 : s.workers.length < K)
      (h3 : outstanding s < C) :
      Step K C s { s with workers := s.workers ++ [WorkerPC.running] }
  | dispatchSync (s : SysState) (i : Nat) (h1 : s.done = false)
      (h2 : s.workers.length < K) (hC : C = 0)
      (h3 : s.workers[i]? = some WorkerPC.incremented) :
      Step K C s
        { s with workers := (s.workers.set i WorkerPC.released) ++ [WorkerPC.running] }
  | workerIncr (s : SysState) (i : Nat) (h : s.workers[i]? = some WorkerPC.running) :
      Step K C s
        { s with workers := s.workers.set i WorkerPC.incremented,
                 current := s.current + 1 }
  | workerRelease (s : SysState) (i : Nat) (hC : 0 < C)
      (h : s.workers[i]? = some WorkerPC.incremented) :
      Step K C s { s with workers := s.workers.set i WorkerPC.released }
  | finish (s : SysState) (h1 : s.done = false) (h2 : s.workers.length = K)
      (h3 : outstanding s = 0) :
      Step K C s { s with done := true }

/-- States reachable from the start of the dispatch loop. -/
inductive Reach (K C : Nat) : SysState → Prop where
  | init : Reach K C initState
  | step {s s2 : SysState} : Reach K C s → Step K C s s2 → Reach K C s2

/-- Go `encoding/json` leaves a struct field absent from the document at its
zero value, so a config file whose "options" omits "concurrency" yields
`options.Concurrency == 0` (src/main.go lines 35-39, 94). -/
def decodedConcurrency : Option Nat → Nat
  | some n => n
  | none => 0

/-- Invariant of every reachable state: the shared counter equals the number
of workers past their increment; at most `K` goroutines were spawned; at most
`C` gate tokens are buffered; and if "copy completed" was logged then all `K`
objects were dispatched and no token remained. -/
structure SysInv (K C : Nat) (s : SysState) : Prop where
  current_eq : s.current = countP (fun w => w != WorkerPC.running) s.workers
  len_le : s.workers.length ≤ K
  out_le : outstanding s ≤ C
  done_ok : s.done = true → s.workers.length = K ∧ outstanding s = 0

/-! ## Concrete fixtures used by witnesses and counterexamples -/

/-- A `copyObj` environment whose existence probe errored (e.g. a network
failure on `StatObject`) while the put succeeds. -/
def envProbeErr : ObjEnv :=
  { statResult := .error "stat timeout", putResult := .ok 5 }

/-- The in-band entry minio-go delivers when a listing fails mid-stream:
zero-value key, `Err` set. -/
def errEntry : ObjectInfo := { key := "", err := some "connection reset" }

/-- A listing that yields one object and then fails mid-stream. -/
def errListing : List ObjectInfo := [{ key := "dir/a.txt", err := none }, errEntry]

/-- A source holding exactly one object. -/
def srcOne : String → Option Int := fun k => if k = "dir/a.txt" then some 7 else none

/-- The listing of that source. -/
def listOne : List ObjectInfo := [{ key := "dir/a.txt", err := none }]

/-! ## Counting lemmas for worker phases -/

theorem countP_append (p : WorkerPC → Bool) (l : List WorkerPC) (w : WorkerPC) :
    countP p (l ++ [w]) = countP p l + (if p w then 1 else 0) := by
  induction l with
  | nil => simp [countP]
  | cons x xs ih => simp [countP, ih]; omega

theorem countP_le_length (p : WorkerPC → Bool) (l : List WorkerPC) :
    countP p l ≤ l.length := by
  induction l with
  | nil => simp [countP]
  | cons x xs ih =>
    simp only [countP, List.length_cons]
    cases p x <;> simp <;> omega

theorem countP_set (p : WorkerPC → Bool) (l : List WorkerPC) (i : Nat)
    (w v : WorkerPC) (h : l[i]? = some w) :
    countP p (l.set i v) + (if p w then 1 else 0)
      = countP p l + (if p v then 1 else 0) := by
  induction l generalizing i with
  | nil => simp at h
  | cons x xs ih =>
    cases i with
    | zero =>
      simp only [List.getElem?_cons_zero, Option.some_inj] at h
      subst h
      simp only [List.set_cons_zero, countP]
      omega
    | succ n =>
      simp only [List.getElem?_cons_succ] at h
      simp only [List.set_cons_succ, countP]
      have := ih n h
      omega

theorem countP_pos (p : WorkerPC → Bool) (l : List WorkerPC) (i : Nat)
    (w : WorkerPC) (h : l[i]? = some w) (hw : p w = true) :
    0 < countP p l := by
  induction l generalizing i with
  | nil => simp at h
  | cons x xs ih =>
    cases i with
    | zero =>
      simp only [List.getElem?_cons_zero, Option.some_inj] at h
      subst h
      simp [countP, hw]
    | succ n =>
      simp only [List.getElem?_cons_succ] at h
      have := ih n h
      simp only [countP]
      omega

theorem countP_eq_zero {p : WorkerPC → Bool} {l : List WorkerPC}
    (h : countP p l = 0) : ∀ w ∈ l, p w = false := by
  induction l with
  | nil => simp
  | cons x xs ih =>
    have hx : (if p x then 1 else 0) + countP p xs = 0 := h
    intro w hw
    rcases List.mem_cons.mp hw with rfl | hw2
    · cases hpx : p w
      · rfl
      · rw [hpx, if_pos rfl] at hx; omega
    · refine ih ?_ w hw2
      cases hpx : p x
      · rw [hpx, if_neg (by simp)] at hx; omega
      · rw [hpx, if_pos rfl] at hx; omega

theorem countP_notRunning_of_all_released {l : List WorkerPC}
    (h : ∀ w ∈ l, w = WorkerPC.released) :
    countP (fun w => w != WorkerPC.running) l = l.length := by
  induction l with
  | nil => simp [countP]
  | cons x xs ih =>
    have hx := h x (by simp)
    subst hx
    have ihx := ih fun w hw => h w (by simp [hw])
    have hstep : countP (fun w => w != WorkerPC.running) (WorkerPC.released :: xs)
        = (if (WorkerPC.released != WorkerPC.running) = true then 1 else 0)
          + countP (fun w => w != WorkerPC.running) xs := rfl
    rw [hstep, if_pos (by decide), ihx, List.length_cons]
    omega

theorem all_released_of_outstanding_zero {s : SysState}
    (h : outstanding s = 0) : ∀ w ∈ s.workers, w = WorkerPC.released := by
  have h2 : countP (fun w => w != WorkerPC.released) s.workers = 0 := h
  intro w hw
  have h3 := countP_eq_zero h2 w hw
  cases w with
  | released => rfl
  | running => exact absurd h3 (by decide)
  | incremented => exact absurd h3 (by decide)

/-! ## Run invariant -/

theorem inv_init (K C : Nat) : SysInv K C initState := by
  constructor <;> simp [initState, outstanding, countP]

theorem inv_step {K C : Nat} {s s2 : SysState}
    (hi : SysInv K C s) (hs : Step K C s s2) : SysInv K C s2 := by
  cases hs with
  | dispatchBuf h1 h2 h3 =>
    have hc := hi.current_eq
    have ho : countP (fun w => w != WorkerPC.released) s.workers < C := h3
    have hcur : s.current
        = countP (fun w => w != WorkerPC.running) (s.workers ++ [WorkerPC.running]) := by
      rw [countP_append, if_neg (by decide), Nat.add_zero]; exact hc
    have hlen : (s.workers ++ [WorkerPC.running]).length ≤ K := by
      rw [List.length_append]; simp only [List.length_cons, List.length_nil]; omega
    have hout : countP (fun w => w != WorkerPC.released) (s.workers ++ [WorkerPC.running]) ≤ C := by
      rw [countP_append, if_pos (by decide)]; omega
    exact ⟨hcur, hlen, hout, fun hd => absurd (h1.symm.trans hd) (by decide)⟩
  | dispatchSync j h1 h2 hC h3 =>
    have hc := hi.current_eq
    have ho : countP (fun w => w != WorkerPC.released) s.workers ≤ C := hi.out_le
    have e1 := countP_set (fun w => w != WorkerPC.running) s.workers j
      WorkerPC.incremented WorkerPC.released h3
    rw [if_pos (by decide), if_pos (by decide)] at e1
    have e2 := countP_set (fun w => w != WorkerPC.released) s.workers j
      WorkerPC.incremented WorkerPC.released h3
    rw [if_pos (by decide), if_neg (by decide)] at e2
    have hcur : s.current = countP (fun w => w != WorkerPC.running)
        ((s.workers.set j WorkerPC.released) ++ [WorkerPC.running]) := by
      rw [countP_append, if_neg (by decide), Nat.add_zero]; omega
    have hlen : ((s.workers.set j WorkerPC.released) ++ [WorkerPC.running]).length ≤ K := by
      rw [List.length_append, List.length_set]
      simp only [List.length_cons, List.length_nil]; omega
    have hout : countP (fun w => w != WorkerPC.released)
        ((s.workers.set j WorkerPC.released) ++ [WorkerPC.running]) ≤ C := by
      rw [countP_append, if_pos (by decide)]; omega
    exact ⟨hcur, hlen, hout, fun hd => absurd (h1.symm.trans hd) (by decide)⟩
  | workerIncr j h =>
    have hc := hi.current_eq
    have ho : countP (fun w => w != WorkerPC.released) s.workers ≤ C := hi.out_le
    have e1 := countP_set (fun w => w != WorkerPC.running) s.workers j
      WorkerPC.running WorkerPC.incremented h
    rw [if_neg (by decide), if_pos (by decide)] at e1
    have e2 := countP_set (fun w => w != WorkerPC.released) s.workers j
      WorkerPC.running WorkerPC.incremented h
    rw [if_pos (by decide), if_pos (by decide)] at e2
    have hcur : s.current + 1
        = countP (fun w => w != WorkerPC.running) (s.workers.set j WorkerPC.incremented) := by
      omega
    have hlen : (s.workers.set j WorkerPC.incremented).length ≤ K := by
      rw [List.length_set]; exact hi.len_le
    have hout : countP (fun w => w != WorkerPC.released)
        (s.workers.set j WorkerPC.incremented) ≤ C := by
      omega
    refine ⟨hcur, hlen, hout, fun hd => ?_⟩
    exfalso
    have h0 : countP (fun w => w != WorkerPC.released) s.workers = 0 := (hi.done_ok hd).2
    have hp := countP_pos (fun w => w != WorkerPC.released) s.workers j
      WorkerPC.running h (by decide)
    omega
  | workerRelease j hC h =>
    have hc := hi.current_eq
    have ho : countP (fun w => w != WorkerPC.released) s.workers ≤ C := hi.out_le
    have e1 := countP_set (fun w => w != WorkerPC.running) s.workers j
      WorkerPC.incremented WorkerPC.released h
    rw [if_pos (by decide), if_pos (by decide)] at e1
    have e2 := countP_set (fun w => w != WorkerPC.released) s.workers j
      WorkerPC.incremented WorkerPC.released h
    rw [if_pos (by decide), if_neg (by decide)] at e2
    have hcur : s.current
        = countP (fun w => w != WorkerPC.running) (s.workers.set j WorkerPC.released) := by
      omega
    have hlen : (s.workers.set j WorkerPC.released).length ≤ K := by
      rw [List.length_set]; exact hi.len_le
    have hout : countP (fun w => w != WorkerPC.released)
        (s.workers.set j WorkerPC.released) ≤ C := by
      omega
    refine ⟨hcur, hlen, hout, fun hd => ?_⟩
    exfalso
    have h0 : countP (fun w => w != WorkerPC.released) s.workers = 0 := (hi.done_ok hd).2
    have hp := countP_pos (fun w => w != WorkerPC.released) s.workers j
      WorkerPC.incremented h (by decide)
    omega
  | finish h1 h2 h3 =>
    exact ⟨hi.current_eq, hi.len_le, hi.out_le, fun _ => ⟨h2, h3⟩⟩

theorem reach_inv {K C : Nat} {s : SysState} (h : Reach K C s) : SysInv K C s := by
  induction h with
  | init => exact inv_init K C
  | step _ hs ih => exact inv_step ih hs

/-- A worker that has performed its deferred channel receive never performs
it (or anything else) again: the `released` phase is absorbing under every
step. -/
theorem released_absorbing {K C : Nat} {s s2 : SysState} (hs : Step K C s s2)
    (i : Nat) (h : s.workers[i]? = some WorkerPC.released) :
    s2.workers[i]? = some WorkerPC.released := by
  have hilt : i < s.workers.length := by
    by_contra hge
    rw [List.getElem?_eq_none (by omega)] at h
    cases h
  cases hs with
  | dispatchBuf h1 h2 h3 =>
    show (s.workers ++ [WorkerPC.running])[i]? = some WorkerPC.released
    rw [List.getElem?_append_left hilt]; exact h
  | dispatchSync j h1 h2 hC h3 =>
    show ((s.workers.set j WorkerPC.released) ++ [WorkerPC.running])[i]?
      = some WorkerPC.released
    have hij : j ≠ i := by
      intro he; subst he; rw [h] at h3; cases h3
    rw [List.getElem?_append_left (by rw [List.length_set]; exact hilt),
      List.getElem?_set_ne hij]
    exact h
  | workerIncr j hj =>
    show (s.workers.set j WorkerPC.incremented)[i]? = some WorkerPC.released
    have hij : j ≠ i := by
      intro he; subst he; rw [h] at hj; cases hj
    rw [List.getElem?_set_ne hij]; exact h
  | workerRelease j hC hj =>
    show (s.workers.set j WorkerPC.released)[i]? = some WorkerPC.released
    have hij : j ≠ i := by
      intro he; subst he; rw [h] at hj; cases hj
    rw [List.getElem?_set_ne hij]; exact h
  | finish h1 h2 h3 =>
    exact h

/-! ## Run-level lemmas -/

theorem runObj_dst_superset (src : String → Option Int) (dst : List String)
    (key k : String) (hk : k ∈ dst) : k ∈ (runObj src dst key).2 := by
  unfold runObj
  cases hput : putOf src key with
  | ok n => simp only [hput]; exact List.mem_cons_of_mem _ hk
  | error e => simp only [hput]; exact hk

theorem runObj_dst_self (src : String → Option Int) (dst : List String)
    (key : String) (hs : (src key).isSome) : key ∈ (runObj src dst key).2 := by
  unfold runObj putOf
  cases hsk : src key with
  | none => rw [hsk] at hs; cases hs
  | some n => simp only [hsk]; exact List.mem_cons_self _ _

theorem runObj_outcome_skipped (src : String → Option Int) (dst : List String)
    (key : String) (hmem : key ∈ dst) (hne : key ≠ "") :
    (runObj src dst key).1.outcome = TransferOutcome.skipped := by
  unfold runObj copyObj envFor statKeyOf statOf
  simp only [if_pos hmem, if_pos hne]

theorem runAll_count (src : String → Option Int) (l : List ObjectInfo)
    (dst : List String) : (runAll src l dst).finalCount = l.length := by
  induction l generalizing dst with
  | nil => rfl
  | cons e es ih => simp only [runAll, List.length_cons, ih]

theorem runAll_outcomes_length (src : String → Option Int) (l : List ObjectInfo)
    (dst : List String) : (runAll src l dst).outcomes.length = l.length := by
  induction l generalizing dst with
  | nil => rfl
  | cons e es ih => simp only [runAll, List.length_cons, ih]

theorem runAll_dst_mono (src : String → Option Int) (l : List ObjectInfo)
    (dst : List String) (k : String) (hk : k ∈ dst) :
    k ∈ (runAll src l dst).finalDst := by
  induction l generalizing dst with
  | nil => exact hk
  | cons e es ih => exact ih _ (runObj_dst_superset src dst e.key k hk)

theorem runAll_success_mem (src : String → Option Int) (l : List ObjectInfo)
    (dst : List String) (h : ∀ e ∈ l, (src e.key).isSome) :
    ∀ e ∈ l, e.key ∈ (runAll src l dst).finalDst := by
  induction l generalizing dst with
  | nil => intro e he; cases he
  | cons e0 es ih =>
    intro e he
    rcases List.mem_cons.mp he with rfl | he2
    · exact runAll_dst_mono src es _ e.key
        (runObj_dst_self src dst e.key (h e (List.mem_cons_self _ _)))
    · exact ih _ (fun x hx => h x (List.mem_cons_of_mem _ hx)) e he2

theorem runAll_all_present_skipped (src : String → Option Int) (l : List ObjectInfo)
    (dst : List String) (h : ∀ e ∈ l, e.key ∈ dst ∧ e.key ≠ "") :
    ∀ o ∈ (runAll src l dst).outcomes, o = TransferOutcome.skipped := by
  induction l generalizing dst with
  | nil => intro o ho; cases ho
  | cons e0 es ih =>
    intro o ho
    rcases List.mem_cons.mp ho with rfl | ho2
    · obtain ⟨hm, hn⟩ := h e0 (List.mem_cons_self _ _)
      exact runObj_outcome_skipped src dst e0.key hm hn
    · refine ih _ (fun x hx => ?_) o ho2
      obtain ⟨hm, hn⟩ := h x (List.mem_cons_of_mem _ hx)
      exact ⟨runObj_dst_superset src dst e0.key x.key hm, hn⟩

theorem runAll_all_fail (l : List ObjectInfo) :
    (runAll (fun _ => none) l []).outcomes
      = l.map (fun _ => TransferOutcome.failed "read failed") := by
  induction l with
  | nil => rfl
  | cons e es ih =>
    simp only [runAll, List.map_cons]
    show TransferOutcome.failed "read failed" :: (runAll (fun _ => none) es []).outcomes
      = TransferOutcome.failed "read failed"
        :: List.map (fun _ => TransferOutcome.failed "read failed") es
    rw [ih]

/-! ## Claim theorems -/

/-- C1 (code evaluated at the failing input): the claim says an object whose
key already exists at the destination is skipped without any put and without
the source payload being read for transfer. The code violates this: at an
object present at the destination (successful stat), `copyObj` reports the
Skipped outcome, yet its action trace contains the `getObject` and the
unconditional `putObject` of that key — the payload was streamed to the
destination anyway, because src/main.go line 140 runs before the existence
branch at line 153. -/
theorem c1_existing_object_still_put :
    (copyObj "dir/a.txt"
      { statResult := .ok ⟨"dir/a.txt"⟩, putResult := .ok 7 }).outcome
        = TransferOutcome.skipped ∧
    S3Action.putObject "dir/a.txt" ∈ (copyObj "dir/a.txt"
      { statResult := .ok ⟨"dir/a.txt"⟩, putResult := .ok 7 }).actions ∧
    S3Action.getObject "dir/a.txt" ∈ (copyObj "dir/a.txt"
      { statResult := .ok ⟨"dir/a.txt"⟩, putResult := .ok 7 }).actions := by
  refine ⟨rfl, ?_, ?_⟩ <;> simp [copyObj]

/-- C7: an errored existence probe (the stat error is discarded at
src/main.go line 137, leaving the zero-value empty key) is treated as
"object does not exist": the outcome is never Skipped and is determined by
the put result alone, so a probe error neither fails nor skips the
transfer; conversely a Skipped outcome arises only from a successful stat
whose key is non-empty (presence). -/
theorem c7_probe_error_never_skips (objPath : String) (env : ObjEnv) :
    (∀ msg, env.statResult = .error msg →
      (copyObj objPath env).outcome ≠ TransferOutcome.skipped ∧
      (∀ n, env.putResult = .ok n →
        (copyObj objPath env).outcome = TransferOutcome.copied n) ∧
      (∀ e, env.putResult = .error e →
        (copyObj objPath env).outcome = TransferOutcome.failed e)) ∧
    ((copyObj objPath env).outcome = TransferOutcome.skipped →
      ∃ s, env.statResult = .ok s ∧ s.key ≠ "") := by
  obtain ⟨stat, put⟩ := env
  constructor
  · rintro msg rfl
    refine ⟨?_, ?_, ?_⟩
    · cases put <;> simp [copyObj, statKeyOf]
    · rintro n rfl
      rfl
    · rintro e rfl
      rfl
  · cases stat with
    | error m =>
      intro hsk
      exfalso
      cases put with
      | ok n => exact TransferOutcome.noConfusion hsk
      | error e2 => exact TransferOutcome.noConfusion hsk
    | ok s =>
      obtain ⟨k⟩ := s
      intro hsk
      refine ⟨⟨k⟩, rfl, fun hkey => ?_⟩
      have hk : k = "" := hkey
      subst hk
      cases put with
      | ok n => exact TransferOutcome.noConfusion hsk
      | error e2 => exact TransferOutcome.noConfusion hsk

/-- Witness for C7 at a concrete errored probe with a successful put. -/
theorem c7_witness :
    (copyObj "dir/a.txt" envProbeErr).outcome ≠ TransferOutcome.skipped ∧
    (copyObj "dir/a.txt" envProbeErr).outcome = TransferOutcome.copied 5 :=
  ⟨((c7_probe_error_never_skips "dir/a.txt" envProbeErr).1 "stat timeout" rfl).1,
   (((c7_probe_error_never_skips "dir/a.txt" envProbeErr).1 "stat timeout" rfl).2.1) 5 rfl⟩

/-- C9: when the total is unset (`-progress` disabled, sentinel `-1`), the
per-object report shows only the current count; when the total was fixed by
the pre-count (a non-negative value), the report renders `current/total`. -/
theorem c9_progress_report_format (cur counted : Int) (hc : 0 ≤ counted) :
    progressLabel (ocTotal false counted) cur = "[" ++ toString cur ++ "]" ∧
    progressLabel (ocTotal true counted) cur
      = "[" ++ toString cur ++ "/" ++ toString counted ++ "]" := by
  have hne : counted ≠ -1 := by omega
  constructor
  · show progressLabel (-1) cur = "[" ++ toString cur ++ "]"
    simp [progressLabel, String.append_empty, String.append_assoc]
  · simp [progressLabel, ocTotal, hne, String.append_assoc]

/-- Witness for C9 at current = 2, pre-counted total = 5. -/
theorem c9_witness :
    (0 : Int) ≤ 5 ∧
    (progressLabel (ocTotal false 5) 2 = "[" ++ toString (2 : Int) ++ "]" ∧
     progressLabel (ocTotal true 5) 2
       = "[" ++ toString (2 : Int) ++ "/" ++ toString (5 : Int) ++ "]") :=
  ⟨by decide, c9_progress_report_format 2 5 (by decide)⟩

/-- C4 counterexample: a listing failing mid-stream after one object (the
failure arriving as minio-go's in-band error entry `errEntry`). The claim
says the run aborts immediately; instead the run completes normally — it
even dispatches a copy for the error entry's empty key — so the result is
`completed`, not `aborted`. -/
theorem c4_counterexample :
    mainRun (fun _ => some 3) errListing []
      = RunResult.completed [TransferOutcome.copied 3, TransferOutcome.copied 3] 2 := by
  rfl

/-- C4 (amended): a mid-stream listing enumeration failure is not fatal and
is not propagated: the error arrives as an in-band entry that `main` never
inspects, the entry is dispatched like an ordinary object, and the run
completes normally with one outcome per delivered entry — the listing is
silently truncated at the failure point. -/
theorem c4_listing_error_not_fatal (src : String → Option Int)
    (listing : List ObjectInfo) (dst : List String)
    (h : ∃ e ∈ listing, e.err.isSome) :
    (mainRun src listing dst).isCompleted = true ∧
    (mainRun src listing dst).numOutcomes = listing.length := by
  refine ⟨rfl, ?_⟩
  show (runAll src listing dst).outcomes.length = listing.length
  exact runAll_outcomes_length src listing dst

/-- Witness for C4 (amended) on the mid-stream-failure listing. -/
theorem c4_witness :
    (∃ e ∈ errListing, e.err.isSome) ∧
    ((mainRun (fun _ => some 3) errListing []).isCompleted = true ∧
     (mainRun (fun _ => some 3) errListing []).numOutcomes = errListing.length) :=
  ⟨⟨errEntry, by simp [errListing], rfl⟩,
   c4_listing_error_not_fatal _ _ _ ⟨errEntry, by simp [errListing], rfl⟩⟩

/-- C5: per-object read/write failures are local: for every source,
listing and destination the run completes, logs one outcome per listed
object, and reports a final count equal to the listing size — and with a
source on which every read fails, every outcome is Failed yet the run still
completes with the full count. -/
theorem c5_per_object_failure_is_local (src : String → Option Int)
    (listing : List ObjectInfo) (dst : List String) :
    (mainRun src listing dst).isCompleted = true ∧
    (mainRun src listing dst).numOutcomes = listing.length ∧
    (mainRun src listing dst).reportedCount = listing.length ∧
    (runAll (fun _ => none) listing []).outcomes
      = listing.map (fun _ => TransferOutcome.failed "read failed") := by
  refine ⟨rfl, ?_, ?_, runAll_all_fail listing⟩
  · exact runAll_outcomes_length src listing dst
  · exact runAll_count src listing dst

/-- C8: idempotence of reported outcomes — if the first run succeeds (every
listed key is readable from the source, so its unconditional put lands) and
the listed keys are genuine object keys (non-empty), then a second run of
the same listing against the destination state the first run left behind
reports only Skipped outcomes. -/
theorem c8_second_run_all_skipped (src : String → Option Int)
    (listing : List ObjectInfo) (dst0 : List String)
    (hsrc : ∀ e ∈ listing, (src e.key).isSome)
    (hkeys : ∀ e ∈ listing, e.key ≠ "") :
    ∀ o ∈ (runAll src listing (runAll src listing dst0).finalDst).outcomes,
      o = TransferOutcome.skipped := by
  apply runAll_all_present_skipped
  intro e he
  exact ⟨runAll_success_mem src listing dst0 hsrc e he, hkeys e he⟩

/-- Witness for C8: one object, copied by the first run, skipped by the
second. -/
theorem c8_witness :
    (∀ e ∈ listOne, (srcOne e.key).isSome) ∧
    ∀ o ∈ (runAll srcOne listOne (runAll srcOne listOne []).finalDst).outcomes,
      o = TransferOutcome.skipped :=
  ⟨by intro e he; simp only [listOne, List.mem_singleton] at he; subst he; rfl,
   c8_second_run_all_skipped srcOne listOne []
     (by intro e he; simp only [listOne, List.mem_singleton] at he; subst he; rfl)
     (by intro e he; simp only [listOne, List.mem_singleton] at he; subst he; decide)⟩

/-- C2: whenever the orchestrator has logged "copy completed", the shared
counter equals `K`, the number of objects the dispatch-phase listing
yielded: exactly one increment per listed object, none lost or duplicated
under any interleaving of the workers. -/
theorem c2_final_count_equals_listing (K C : Nat) (s : SysState)
    (h : Reach K C s) (hdone : s.done = true) : s.current = K := by
  obtain ⟨hlen, hout⟩ := (reach_inv h).done_ok hdone
  have hall := all_released_of_outstanding_zero hout
  rw [(reach_inv h).current_eq, countP_notRunning_of_all_released hall, hlen]

/-- A complete concrete schedule with one object at concurrency one:
dispatch, increment, release, then the drain loop finishes. -/
theorem reach_done_example :
    Reach 1 1 { workers := [WorkerPC.released], current := 1, done := true } := by
  have h0 : Reach 1 1 initState := Reach.init
  have h1 := h0.step (Step.dispatchBuf initState rfl (by decide) (by decide))
  have h2 := h1.step (Step.workerIncr _ 0 (by decide))
  have h3 := h2.step (Step.workerRelease _ 0 (by decide) (by decide))
  exact h3.step (Step.finish _ (by decide) (by decide) (by decide))

/-- Witness for C2 on the concrete one-object schedule. -/
theorem c2_witness :
    ({ workers := [WorkerPC.released], current := 1, done := true } : SysState).current = 1 :=
  c2_final_count_equals_listing 1 1 _ reach_done_example rfl

/-- C3: with a configured concurrency limit C, 1 ≤ C ≤ K, the number of
outstanding admitted transfers (gate tokens sent but not yet received back)
never exceeds C in any reachable state. -/
theorem c3_outstanding_never_exceeds_limit (K C : Nat) (s : SysState)
    (hC : 1 ≤ C) (hK : C ≤ K) (h : Reach K C s) :
    outstanding s ≤ C :=
  (reach_inv h).out_le

/-- Witness for C3 at K = 2, C = 1 on the initial state. -/
theorem c3_witness :
    (1 ≤ 1 ∧ 1 ≤ 2) ∧ outstanding initState ≤ 1 :=
  ⟨by decide,
   c3_outstanding_never_exceeds_limit 2 1 initState (by decide) (by decide) Reach.init⟩

/-- C6: the deferred receive releases each admitted transfer exactly once —
the released phase is absorbing, so no second release of the same worker can
occur — and the orchestrator never declares the run complete while any
acquisition is outstanding: once "copy completed" is logged, the channel
holds no token and every admitted worker has released. -/
theorem c6_release_exactly_once_and_drain (K C : Nat) (s : SysState)
    (h : Reach K C s) :
    (s.done = true → outstanding s = 0 ∧ ∀ w ∈ s.workers, w = WorkerPC.released) ∧
    (∀ (s2 : SysState) (i : Nat), Step K C s s2 →
      s.workers[i]? = some WorkerPC.released →
      s2.workers[i]? = some WorkerPC.released) := by
  refine ⟨fun hd => ?_, fun s2 i hs hw => released_absorbing hs i hw⟩
  obtain ⟨hlen, hout⟩ := (reach_inv h).done_ok hd
  exact ⟨hout, all_released_of_outstanding_zero hout⟩

/-- Witness for C6 on the concrete completed schedule. -/
theorem c6_witness :
    outstanding { workers := [WorkerPC.released], current := 1, done := true } = 0 ∧
    ∀ w ∈ ({ workers := [WorkerPC.released], current := 1, done := true } : SysState).workers,
      w = WorkerPC.released :=
  (c6_release_exactly_once_and_drain 1 1 _ reach_done_example).1 rfl

/-- C10: with concurrency 0 — exactly the value decoded from a config whose
"concurrency" field is omitted — `workersCh` is unbuffered, so the dispatch
loop's first send can never complete (the only potential receivers are
worker goroutines, none of which has been spawned): for any non-empty
listing every reachable state is the initial one — no transfer is ever
dispatched, the counter stays 0 and "copy completed" is never logged. -/
theorem c10_zero_concurrency_deadlock (K : Nat) (s : SysState) (hK : 1 ≤ K)
    (h : Reach K (decodedConcurrency none) s) :
    s.workers = [] ∧ s.current = 0 ∧ s.done = false := by
  induction h with
  | init => exact ⟨rfl, rfl, rfl⟩
  | step hr hs ih =>
    obtain ⟨hw, hc, hd⟩ := ih
    cases hs with
    | dispatchBuf h1 h2 h3 =>
      exact absurd h3 (Nat.not_lt_zero _)
    | dispatchSync j h1 h2 hC h3 =>
      rw [hw] at h3; simp at h3
    | workerIncr j hj =>
      rw [hw] at hj; simp at hj
    | workerRelease j hC hj =>
      exact absurd hC (by decide)
    | finish h1 h2 h3 =>
      rw [hw] at h2; simp at h2; omega

/-- Witness for C10 at K = 1 on the initial state. -/
theorem c10_witness :
    initState.workers = [] ∧ initState.current = 0 ∧ initState.done = false :=
  c10_zero_concurrency_deadlock 1 initState (by decide) Reach.init
